import Mathlib

/-!
Verification of the aureon blockchain node core against its specification.

The Rust sources under aureon-node are shallowly embedded: byte strings are
lists of naturals below 256, u64 arithmetic wraps explicitly modulo 2^64 at
the operations where Rust (release profile) wraps, stateful methods become
explicit state passing, and fallible methods return Except.  SHA-256 (sha2
crate) and Keccak-256 (sha3 crate, Keccak256) are implemented in full so that
hash values computed by the node can be evaluated inside proofs.
-/

set_option maxRecDepth 100000

namespace Aureon

/-- A byte string: list of naturals, each intended below 256. -/
abbrev Bytes := List Nat

/-- Decidable equality on `Except`, for evaluating admission results. -/
instance {α β : Type} [DecidableEq α] [DecidableEq β] : DecidableEq (Except α β) :=
  fun x y =>
    match x, y with
    | Except.error a, Except.error b =>
        if h : a = b then Decidable.isTrue (by rw [h]) else Decidable.isFalse (by simp [h])
    | Except.ok a, Except.ok b =>
        if h : a = b then Decidable.isTrue (by rw [h]) else Decidable.isFalse (by simp [h])
    | Except.error _, Except.ok _ => Decidable.isFalse (by simp)
    | Except.ok _, Except.error _ => Decidable.isFalse (by simp)

/-- 2^64, the modulus of Rust u64 wrapping arithmetic. -/
def u64Mod : Nat := 18446744073709551616

/-- 2^32, the modulus of 32-bit words in SHA-256. -/
def w32Mod : Nat := 4294967296

/-- Little-endian decoding of a byte list into a natural. -/
def leDecode : Bytes → Nat
  | [] => 0
  | b :: rest => b + 256 * leDecode rest

/-- `u64::to_le_bytes`: 8 little-endian bytes of a u64. -/
def toLeBytes8 (n : Nat) : Bytes :=
  [n % 256, n / 256 % 256, n / 65536 % 256, n / 16777216 % 256,
   n / 4294967296 % 256, n / 1099511627776 % 256,
   n / 281474976710656 % 256, n / 72057594037927936 % 256]

/-- `u64::from_le_bytes(bytes.try_into().unwrap_or_default())`: a byte
string of length other than 8 falls back to the default `[0; 8]`, hence 0. -/
def fromLeBytes8 (b : Bytes) : Nat :=
  if b.length = 8 then leDecode b else 0

/-- Lowercase hex digit character for a value below 16. -/
def hexDigitChar (n : Nat) : Char :=
  Char.ofNat (if n < 10 then 48 + n else 87 + n)

/-- `hex::encode`: lowercase hex string of a byte list. -/
def hexEncode (b : Bytes) : String :=
  String.mk (b.foldr (fun byte acc => hexDigitChar (byte / 16) :: hexDigitChar (byte % 16) :: acc) [])

/-- `str::starts_with` at the character level (structural, so proofs can
evaluate it; `String.startsWith` itself does not reduce definitionally). -/
def strStartsWith (s p : String) : Bool :=
  p.data.isPrefixOf s.data

/-- Worker for `chunksOf`, structurally recursive on a fuel that bounds the
number of chunks. -/
def chunksOfGo (n : Nat) : Nat → Bytes → List Bytes
  | 0, _ => []
  | Nat.succ _, [] => []
  | Nat.succ fuel, b :: rest => (b :: rest).take n :: chunksOfGo n fuel (rest.drop (n - 1))

/-- Split a list into consecutive chunks of `n` elements (`n ≥ 1`). -/
def chunksOf (n : Nat) (l : Bytes) : List Bytes :=
  chunksOfGo n l.length l

/-! ### SHA-256 (sha2 crate) -/

/-- Right rotation of a 32-bit word. -/
def rotr32 (x n : Nat) : Nat :=
  (Nat.lor (Nat.shiftRight x n) (Nat.shiftLeft x (32 - n))) % w32Mod

/-- SHA-256 σ0. -/
def ssig0 (x : Nat) : Nat :=
  Nat.xor (rotr32 x 7) (Nat.xor (rotr32 x 18) (Nat.shiftRight x 3))

/-- SHA-256 σ1. -/
def ssig1 (x : Nat) : Nat :=
  Nat.xor (rotr32 x 17) (Nat.xor (rotr32 x 19) (Nat.shiftRight x 10))

/-- SHA-256 Σ0. -/
def bsig0 (x : Nat) : Nat :=
  Nat.xor (rotr32 x 2) (Nat.xor (rotr32 x 13) (rotr32 x 22))

/-- SHA-256 Σ1. -/
def bsig1 (x : Nat) : Nat :=
  Nat.xor (rotr32 x 6) (Nat.xor (rotr32 x 11) (rotr32 x 25))

/-- SHA-256 choice function; `4294967295 - x` is 32-bit complement of `x`. -/
def shaCh (x y z : Nat) : Nat :=
  Nat.xor (Nat.land x y) (Nat.land (4294967295 - x) z)

/-- SHA-256 majority function. -/
def shaMaj (x y z : Nat) : Nat :=
  Nat.xor (Nat.xor (Nat.land x y) (Nat.land x z)) (Nat.land y z)

/-- The 64 SHA-256 round constants. -/
def sha256K : List Nat :=
  [1116352408, 1899447441, 3049323471, 3921009573, 961987163, 1508970993, 2453635748, 2870763221,
   3624381080, 310598401, 607225278, 1426881987, 1925078388, 2162078206, 2614888103, 3248222580,
   3835390401, 4022224774, 264347078, 604807628, 770255983, 1249150122, 1555081692, 1996064986,
   2554220882, 2821834349, 2952996808, 3210313671, 3336571891, 3584528711, 113926993, 338241895,
   666307205, 773529912, 1294757372, 1396182291, 1695183700, 1986661051, 2177026350, 2456956037,
   2730485921, 2820302411, 3259730800, 3345764771, 3516065817, 3600352804, 4094571909, 275423344,
   430227734, 506948616, 659060556, 883997877, 958139571, 1322822218, 1537002063, 1747873779,
   1955562222, 2024104815, 2227730452, 2361852424, 2428436474, 2756734187, 3204031479, 3329325298]

/-- Big-endian 4-byte groups of a byte list as 32-bit words. -/
def beWords4 : Bytes → List Nat
  | b0 :: b1 :: b2 :: b3 :: rest => (((b0 * 256 + b1) * 256 + b2) * 256 + b3) :: beWords4 rest
  | _ => []

/-- Big-endian 8 bytes of a natural (used for the SHA-256 length field). -/
def beBytes8 (n : Nat) : Bytes :=
  [n / 72057594037927936 % 256, n / 281474976710656 % 256, n / 1099511627776 % 256,
   n / 4294967296 % 256, n / 16777216 % 256, n / 65536 % 256, n / 256 % 256, n % 256]

/-- Big-endian 4 bytes of a 32-bit word. -/
def beBytes4 (n : Nat) : Bytes :=
  [n / 16777216 % 256, n / 65536 % 256, n / 256 % 256, n % 256]

/-- SHA-256 message padding: 0x80, zeros to 56 mod 64, 8-byte bit length. -/
def sha256Pad (msg : Bytes) : Bytes :=
  let len := msg.length
  let k := (56 + 64 - (len + 1) % 64) % 64
  msg ++ 128 :: List.replicate k 0 ++ beBytes8 (8 * len)

/-- Extend 16 message words to the 64-entry SHA-256 schedule. -/
def sha256Schedule (w16 : List Nat) : List Nat :=
  (List.range 48).foldl
    (fun w i =>
      w ++ [(ssig1 (w.getD (i + 14) 0) + w.getD (i + 9) 0 + ssig0 (w.getD (i + 1) 0) + w.getD i 0) % w32Mod])
    w16

/-- One SHA-256 compression of a 64-byte block into the running state. -/
def sha256Compress (H : List Nat) (block : Bytes) : List Nat :=
  let w := sha256Schedule (beWords4 block)
  let fin := (sha256K.zip w).foldl
    (fun st kw =>
      match st with
      | [a, b, c, d, e, f, g, h] =>
        let t1 := (h + bsig1 e + shaCh e f g + kw.1 + kw.2) % w32Mod
        let t2 := (bsig0 a + shaMaj a b c) % w32Mod
        [(t1 + t2) % w32Mod, a, b, c, (d + t1) % w32Mod, e, f, g]
      | other => other)
    H
  (H.zip fin).map (fun p => (p.1 + p.2) % w32Mod)

/-- SHA-256 of a byte string. -/
def sha256 (msg : Bytes) : Bytes :=
  let H0 : List Nat :=
    [1779033703, 3144134277, 1013904242, 2773480762, 1359893119, 2600822924, 528734635, 1541459225]
  let Hf := (chunksOf 64 (sha256Pad msg)).foldl sha256Compress H0
  (Hf.map beBytes4).flatten

/-! ### Keccak-256 (sha3 crate `Keccak256`) -/

/-- Left rotation of a 64-bit lane. -/
def rotl64 (x n : Nat) : Nat :=
  (Nat.lor (Nat.shiftLeft x n) (Nat.shiftRight x (64 - n))) % u64Mod

/-- The 24 Keccak-f[1600] round constants. -/
def keccakRC : List Nat :=
  [1, 32898, 9223372036854808714, 9223372039002292224,
   32907, 2147483649, 9223372039002292353, 9223372036854808585,
   138, 136, 2147516425, 2147483658,
   2147516555, 9223372036854775947, 9223372036854808713, 9223372036854808579,
   9223372036854808578, 9223372036854775936, 32778, 9223372039002259466,
   9223372039002292353, 9223372036854808704, 2147483649, 9223372039002292232]

/-- Keccak rotation offsets, stored row-major at index `5 * x + y`. -/
def keccakRot : List Nat :=
  [0, 36, 3, 41, 18,
   1, 44, 10, 45, 2,
   62, 6, 43, 15, 61,
   28, 55, 25, 21, 56,
   27, 20, 39, 8, 14]

/-- One Keccak-f round (θ, ρ, π, χ, ι) on the flat 25-lane state. -/
def keccakRound (A : List Nat) (rc : Nat) : List Nat :=
  let C := (List.range 5).map (fun x =>
    Nat.xor (A.getD x 0) (Nat.xor (A.getD (x + 5) 0)
      (Nat.xor (A.getD (x + 10) 0) (Nat.xor (A.getD (x + 15) 0) (A.getD (x + 20) 0)))))
  let D := (List.range 5).map (fun x =>
    Nat.xor (C.getD ((x + 4) % 5) 0) (rotl64 (C.getD ((x + 1) % 5) 0) 1))
  let A1 := (List.range 25).map (fun i => Nat.xor (A.getD i 0) (D.getD (i % 5) 0))
  let B := (List.range 25).map (fun j =>
    let u := j % 5
    let v := j / 5
    let x := (u + 3 * v) % 5
    rotl64 (A1.getD (x + 5 * u) 0) (keccakRot.getD (5 * x + u) 0))
  let A2 := (List.range 25).map (fun j =>
    let x := j % 5
    let y := j / 5
    let b0 := B.getD (x + 5 * y) 0
    let b1 := B.getD ((x + 1) % 5 + 5 * y) 0
    let b2 := B.getD ((x + 2) % 5 + 5 * y) 0
    Nat.xor b0 (Nat.land (18446744073709551615 - b1) b2))
  match A2 with
  | a0 :: rest => Nat.xor a0 rc :: rest
  | [] => []

/-- Keccak-f[1600]: the 24 rounds. -/
def keccakF (A : List Nat) : List Nat :=
  keccakRC.foldl keccakRound A

/-- Keccak multi-rate padding for rate 136 with domain byte 0x01. -/
def keccakPad (msg : Bytes) : Bytes :=
  let q := 136 - msg.length % 136
  if q = 1 then msg ++ [129]
  else msg ++ 1 :: List.replicate (q - 2) 0 ++ [128]

/-- Absorb one 136-byte block (17 little-endian lanes) and permute. -/
def keccakAbsorb (A : List Nat) (block : Bytes) : List Nat :=
  let lanes := (chunksOf 8 block).map leDecode
  keccakF ((List.range 25).map (fun i =>
    if i < 17 then Nat.xor (A.getD i 0) (lanes.getD i 0) else A.getD i 0))

/-- Keccak-256 of a byte string: first 32 bytes of the squeezed state. -/
def keccak256 (msg : Bytes) : Bytes :=
  let A := (chunksOf 136 (keccakPad msg)).foldl keccakAbsorb (List.replicate 25 0)
  ((A.take 4).map toLeBytes8).flatten

/-! ### UTF-8 and Rust `Debug` formatting

`str::as_bytes` is UTF-8; the consensus engines and the mempool hash the
derived `Debug` rendering of transactions, so that rendering is reproduced
character for character (ASCII exactly; `escape_debug` of other characters is
rendered with the unicode escape used for non-printable characters). -/

/-- UTF-8 encoding of one unicode scalar value. -/
def utf8Char (c : Nat) : Bytes :=
  if c < 128 then [c]
  else if c < 2048 then [192 + c / 64, 128 + c % 64]
  else if c < 65536 then [224 + c / 4096, 128 + c / 64 % 64, 128 + c % 64]
  else [240 + c / 262144, 128 + c / 4096 % 64, 128 + c / 64 % 64, 128 + c % 64]

/-- `str::as_bytes`: UTF-8 bytes of a string. -/
def strBytes (s : String) : Bytes :=
  (s.data.map (fun c => utf8Char c.toNat)).flatten

/-- Minimal lowercase hex digits of a natural (unicode scalars). -/
def hexScalars (n : Nat) : List Nat :=
  if h : n < 16 then [if n < 10 then 48 + n else 87 + n]
  else hexScalars (n / 16) ++ [if n % 16 < 10 then 48 + n % 16 else 87 + n % 16]
decreasing_by exact Nat.div_lt_self (by omega) (by omega)

/-- Rust `char::escape_debug` of one character, as unicode scalars: the named
escapes for tab, carriage return, newline, backslash, both quotes and NUL;
printable ASCII verbatim; the `\u` escape otherwise. -/
def escapeDebugChar (c : Nat) : List Nat :=
  if c = 9 then [92, 116]
  else if c = 13 then [92, 114]
  else if c = 10 then [92, 110]
  else if c = 92 then [92, 92]
  else if c = 39 then [92, 39]
  else if c = 34 then [92, 34]
  else if c = 0 then [92, 48]
  else if 32 ≤ c ∧ c ≤ 126 then [c]
  else 92 :: 117 :: 123 :: hexScalars c ++ [125]

/-- Rust `Debug` for `String`: double-quoted, characters escaped. -/
def debugString (s : String) : String :=
  String.mk (Char.ofNat 34 :: ((s.data.map (fun c => escapeDebugChar c.toNat)).flatten.map Char.ofNat
    ++ [Char.ofNat 34]))

/-- Rust `Debug` for `Vec<u8>`: decimal bytes, comma separated, bracketed. -/
def debugVecU8 (b : Bytes) : String :=
  "[" ++ String.intercalate (", ") (b.map (fun n => toString n)) ++ "]"

/-- Rust `Debug` for `Vec<Vec<u8>>`. -/
def debugVecVec (l : List Bytes) : String :=
  "[" ++ String.intercalate (", ") (l.map debugVecU8) ++ "]"

/-! ### aureon-node `types.rs` -/

/-- `TransactionPayload` of `types.rs`. -/
inductive TransactionPayload where
  | Transfer («to» : String) (amount : Nat)
  | ContractDeploy (code : Bytes) (gas_limit : Nat)
  | ContractCall (contract_address : String) (function : String) (args : List Bytes) (gas_limit : Nat)
  | Stake (amount : Nat)
  | Unstake (amount : Nat)
  deriving DecidableEq

/-- `Transaction` of `types.rs`; `sender` embeds the Rust field `from`
(a Lean keyword). -/
structure Transaction where
  sender : String
  nonce : Nat
  gas_price : Nat
  payload : TransactionPayload
  signature : Bytes
  public_key : Bytes
  deriving DecidableEq

/-- `Block` of `types.rs`. -/
structure Block where
  transactions : List Transaction
  previous_hash : String
  nonce : Nat
  hash : String
  pre_state_root : Bytes
  post_state_root : Bytes
  deriving DecidableEq

/-- `Transaction::transfer` helper of `types.rs`. -/
def Transaction.transfer (sender «to» : String) (amount : Nat) : Transaction :=
  { sender, nonce := 0, gas_price := 1,
    payload := TransactionPayload.Transfer «to» amount,
    signature := [], public_key := [] }

/-- Derived `Debug` rendering of a payload (`format!` non-alternate). -/
def TransactionPayload.debugFmt : TransactionPayload → String
  | .Transfer «to» amount =>
      "Transfer \x7b to: " ++ debugString «to» ++ ", amount: " ++ toString amount ++ " \x7d"
  | .ContractDeploy code gas_limit =>
      "ContractDeploy \x7b code: " ++ debugVecU8 code ++ ", gas_limit: " ++ toString gas_limit ++ " \x7d"
  | .ContractCall contract_address function args gas_limit =>
      "ContractCall \x7b contract_address: " ++ debugString contract_address ++
        ", function: " ++ debugString function ++ ", args: " ++ debugVecVec args ++
        ", gas_limit: " ++ toString gas_limit ++ " \x7d"
  | .Stake amount => "Stake \x7b amount: " ++ toString amount ++ " \x7d"
  | .Unstake amount => "Unstake \x7b amount: " ++ toString amount ++ " \x7d"

/-- Derived `Debug` rendering of a transaction. -/
def Transaction.debugFmt (tx : Transaction) : String :=
  "Transaction \x7b from: " ++ debugString tx.sender ++ ", nonce: " ++ toString tx.nonce ++
    ", gas_price: " ++ toString tx.gas_price ++ ", payload: " ++ tx.payload.debugFmt ++
    ", signature: " ++ debugVecU8 tx.signature ++ ", public_key: " ++ debugVecU8 tx.public_key ++
    " \x7d"

/-! ### Merkle-Patricia trie (`mpt/`) -/

/-- `Node` of `mpt/node.rs`; `Branch` carries 16 optional children. -/
inductive Node where
  | Branch (children : List (Option Node)) (value : Option Bytes)
  | Leaf (key : Bytes) (value : Bytes)
  | Extension (shared : Bytes) (child : Node)

/-- bincode varint encoding (standard configuration) of an integer. -/
def bincodeVarint (n : Nat) : Bytes :=
  if n < 251 then [n]
  else if n < 65536 then [251, n % 256, n / 256 % 256]
  else if n < 4294967296 then [252, n % 256, n / 256 % 256, n / 65536 % 256, n / 16777216 % 256]
  else 253 :: toLeBytes8 n

/-- bincode encoding of a `Vec<u8>`: varint length then raw bytes. -/
def bincodeVec (b : Bytes) : Bytes :=
  bincodeVarint b.length ++ b

mutual

/-- Derived bincode `Encode` of a `Node` under `config::standard()`: varint
variant index, fields in order; `Option` encodes a 0/1 discriminant byte,
the 16-slot array encodes its elements without a length. -/
def Node.encode : Node → Bytes
  | .Leaf key value => bincodeVarint 1 ++ bincodeVec key ++ bincodeVec value
  | .Extension shared child => bincodeVarint 2 ++ bincodeVec shared ++ child.encode
  | .Branch children value =>
      bincodeVarint 0 ++ Node.encodeChildren children ++
      (match value with
       | none => [0]
       | some v => 1 :: bincodeVec v)

/-- bincode encoding of the 16-slot child array, element by element. -/
def Node.encodeChildren : List (Option Node) → Bytes
  | [] => []
  | none :: rest => 0 :: Node.encodeChildren rest
  | some n :: rest => 1 :: n.encode ++ Node.encodeChildren rest

end

/-- `Node::hash`: Keccak-256 of the bincode encoding. -/
def Node.hash (n : Node) : Bytes :=
  keccak256 n.encode

/-- `nibble_key` of `mpt/util.rs`. -/
def nibble_key (bytes : Bytes) : Bytes :=
  bytes.foldr (fun b acc => b / 16 :: b % 16 :: acc) []

/-- `MerklePatriciaTrie` of `mpt/trie.rs`. -/
structure MerklePatriciaTrie where
  root : Option Node

/-- `MerklePatriciaTrie::new`. -/
def MerklePatriciaTrie.new : MerklePatriciaTrie := { root := none }

/-- `MerklePatriciaTrie::insert`: computes the nibbles, discards them, and
replaces the whole root by a single leaf holding the new pair. -/
def MerklePatriciaTrie.insert (_t : MerklePatriciaTrie) (key value : Bytes) : MerklePatriciaTrie :=
  let _nibbles := nibble_key key
  { root := some (Node.Leaf key value) }

/-- `MerklePatriciaTrie::get`: only a root leaf with the exact key answers. -/
def MerklePatriciaTrie.get (t : MerklePatriciaTrie) (key : Bytes) : Option Bytes :=
  match t.root with
  | some (Node.Leaf k v) => if k = key then some v else none
  | _ => none

/-- `MerklePatriciaTrie::root_hash`. -/
def MerklePatriciaTrie.root_hash (t : MerklePatriciaTrie) : Bytes :=
  match t.root with
  | some node => node.hash
  | none => []

/-! ### Key-value store (`db.rs`)

RocksDB behind point `put`/`get`/`delete` and a read snapshot.  The embedding
is an association list with at most one entry per key; `snapshot` is the
value copy of the map, which is exactly the read-your-writes-free view
RocksDB snapshots give `SnapshotDb`. -/

/-- Replace the first binding of `k` or append a new one. -/
def putEntries : List (Bytes × Bytes) → Bytes → Bytes → List (Bytes × Bytes)
  | [], k, v => [(k, v)]
  | (k', v') :: rest, k, v =>
      if k' = k then (k, v) :: rest else (k', v') :: putEntries rest k v

/-- `Db` of `db.rs`. -/
structure Db where
  entries : List (Bytes × Bytes)
  deriving DecidableEq

/-- `Db::get`. -/
def Db.get (d : Db) (key : Bytes) : Option Bytes :=
  (d.entries.find? (fun e => e.1 = key)).map (fun e => e.2)

/-- `Db::put`. -/
def Db.put (d : Db) (key value : Bytes) : Db :=
  { entries := putEntries d.entries key value }

/-- `Db::snapshot` / `SnapshotDb`: the state visible at snapshot creation. -/
def Db.snapshot (d : Db) : Db := d

/-! ### State processors (`state_processor.rs`, `simulated_processor.rs`) -/

/-- `StateProcessor`: live KV store and live trie. -/
structure StateProcessor where
  db : Db
  trie : MerklePatriciaTrie

/-- `StateProcessor::get_balance`: little-endian u64 read from the live KV. -/
def StateProcessor.get_balance (s : StateProcessor) (account : String) : Nat :=
  match s.db.get (strBytes account) with
  | some bytes => fromLeBytes8 bytes
  | none => 0

/-- `StateProcessor::set_balance`: writes the KV store and the trie. -/
def StateProcessor.set_balance (s : StateProcessor) (account : String) (balance : Nat) : StateProcessor :=
  let key := strBytes account
  let value := toLeBytes8 balance
  { db := s.db.put key value, trie := s.trie.insert key value }

/-- `StateProcessor::apply_transaction`; u64 addition wraps modulo 2^64. -/
def StateProcessor.apply_transaction (s : StateProcessor) (tx : Transaction) : StateProcessor :=
  match tx.payload with
  | .Transfer «to» amount =>
      let from_balance := s.get_balance tx.sender
      if from_balance ≥ amount then
        let to_balance := s.get_balance «to»
        (s.set_balance tx.sender (from_balance - amount)).set_balance «to» ((to_balance + amount) % u64Mod)
      else s
  | .ContractDeploy _ _ => s
  | .ContractCall _ _ _ _ => s
  | .Stake amount =>
      let balance := s.get_balance tx.sender
      if balance ≥ amount then s.set_balance tx.sender (balance - amount) else s
  | .Unstake amount =>
      let balance := s.get_balance tx.sender
      s.set_balance tx.sender ((balance + amount) % u64Mod)

/-- `StateProcessor::apply_block`: apply all transactions to the live pair
and return the live trie root (the mutated processor is returned with it). -/
def StateProcessor.apply_block (s : StateProcessor) (block : Block) : Bytes × StateProcessor :=
  let s' := block.transactions.foldl StateProcessor.apply_transaction s
  (s'.trie.root_hash, s')

/-- `SimulatedProcessor`: KV snapshot plus working trie. -/
structure SimulatedProcessor where
  snapshot : Db
  trie : MerklePatriciaTrie

/-- `SimulatedProcessor::get_balance`: reads the snapshot only. -/
def SimulatedProcessor.get_balance (s : SimulatedProcessor) (account : String) : Nat :=
  match s.snapshot.get (strBytes account) with
  | some bytes => fromLeBytes8 bytes
  | none => 0

/-- `SimulatedProcessor::set_balance`: writes the trie only — the snapshot
is never updated. -/
def SimulatedProcessor.set_balance (s : SimulatedProcessor) (account : String) (balance : Nat) : SimulatedProcessor :=
  { s with trie := s.trie.insert (strBytes account) (toLeBytes8 balance) }

/-- `SimulatedProcessor::apply_transaction`. -/
def SimulatedProcessor.apply_transaction (s : SimulatedProcessor) (tx : Transaction) : SimulatedProcessor :=
  match tx.payload with
  | .Transfer «to» amount =>
      let from_balance := s.get_balance tx.sender
      if from_balance ≥ amount then
        let to_balance := s.get_balance «to»
        (s.set_balance tx.sender (from_balance - amount)).set_balance «to» ((to_balance + amount) % u64Mod)
      else s
  | .ContractDeploy _ _ => s
  | .ContractCall _ _ _ _ => s
  | .Stake amount =>
      let balance := s.get_balance tx.sender
      if balance ≥ amount then s.set_balance tx.sender (balance - amount) else s
  | .Unstake amount =>
      let balance := s.get_balance tx.sender
      s.set_balance tx.sender ((balance + amount) % u64Mod)

/-- `StateProcessor::simulate_block`: snapshot the KV, clone the trie, apply
to the working pair, return that pair's root; the live state is untouched. -/
def StateProcessor.simulate_block (s : StateProcessor) (transactions : List Transaction) : Bytes :=
  let temp : SimulatedProcessor := { snapshot := s.db.snapshot, trie := s.trie }
  (transactions.foldl SimulatedProcessor.apply_transaction temp).trie.root_hash

/-! ### Mempool (`mempool.rs`)

Ed25519 itself (ed25519_dalek) is left as an oracle parameter `edVerify`
standing for `VerifyingKey::from_bytes` plus `verify`: `Except.error` for a
public key that is not a valid curve point, otherwise the boolean outcome of
verification.  All theorems quantify over the oracle; transactions with an
empty signature or public key never consult it. -/

/-- The ed25519 oracle: message bytes, signature bytes, public-key bytes. -/
abbrev EdVerify := Bytes → Bytes → Bytes → Except String Bool

/-- Association-list lookup for the `account_nonces` map. -/
def lookupNonce (m : List (String × Nat)) (k : String) : Option Nat :=
  (m.find? (fun e => e.1 = k)).map (fun e => e.2)

/-- Association-list insert-or-replace for the `account_nonces` map. -/
def insertNonce : List (String × Nat) → String → Nat → List (String × Nat)
  | [], k, v => [(k, v)]
  | (k', v') :: rest, k, v =>
      if k' = k then (k, v) :: rest else (k', v') :: insertNonce rest k v

/-- `TransactionMempool` of `mempool.rs`: FIFO pending queue (head is the
front), seen-hash set, per-account highest-nonce map, capacity. -/
structure TransactionMempool where
  pending : List Transaction
  seen : List String
  account_nonces : List (String × Nat)
  max_size : Nat
  deriving DecidableEq

/-- `TransactionMempool::with_capacity`. -/
def TransactionMempool.with_capacity (max_size : Nat) : TransactionMempool :=
  { pending := [], seen := [], account_nonces := [], max_size }

/-- `TransactionMempool::new`: default capacity 1000. -/
def TransactionMempool.new : TransactionMempool :=
  TransactionMempool.with_capacity 1000

/-- `TransactionMempool::compute_tx_hash`: lowercase hex SHA-256 of the
`Debug` rendering. -/
def compute_tx_hash (tx : Transaction) : String :=
  hexEncode (sha256 (strBytes tx.debugFmt))

/-- `TransactionMempool::verify_transaction_signature`: empty signature or
public key bypasses; otherwise the signature field is cleared, the hex
SHA-256 of the rendering is signed, and `crypto::verify_signature` runs its
length checks (hex-decoding the hex encoding returns the original bytes)
before consulting ed25519. -/
def TransactionMempool.verify_transaction_signature (edVerify : EdVerify) (tx : Transaction) :
    Except String Unit :=
  if tx.signature.isEmpty || tx.public_key.isEmpty then Except.ok ()
  else
    let tx_for_hash := { tx with signature := [] }
    let tx_hash := hexEncode (sha256 (strBytes tx_for_hash.debugFmt))
    if tx.signature.length ≠ 64 then Except.error ("Signature must be 64 bytes")
    else if tx.public_key.length ≠ 32 then Except.error ("Public key must be 32 bytes")
    else
      match edVerify (strBytes tx_hash) tx.signature tx.public_key with
      | Except.error e => Except.error e
      | Except.ok true => Except.ok ()
      | Except.ok false => Except.error ("Invalid transaction signature")

/-- The `BadNonce` message of `verify_nonce`. -/
def badNonceMsg (max_nonce_seen got : Nat) : String :=
  "Invalid nonce: expected higher than " ++ toString max_nonce_seen ++ ", got " ++ toString got

/-- `TransactionMempool::verify_nonce`: an account already in the map must
strictly increase its nonce; an unseen account passes with any nonce. -/
def TransactionMempool.verify_nonce (mp : TransactionMempool) (tx : Transaction) :
    Except String Unit :=
  match lookupNonce mp.account_nonces tx.sender with
  | some max_nonce_seen =>
      if tx.nonce ≤ max_nonce_seen then Except.error (badNonceMsg max_nonce_seen tx.nonce)
      else Except.ok ()
  | none => Except.ok ()

/-- `TransactionMempool::add_transaction`: signature, nonce, duplicate and
capacity checks in that order, then — only on success — the nonce map,
pending queue and seen set are updated. -/
def TransactionMempool.add_transaction (edVerify : EdVerify) (mp : TransactionMempool)
    (tx : Transaction) : Except String String × TransactionMempool :=
  match TransactionMempool.verify_transaction_signature edVerify tx with
  | Except.error e => (Except.error e, mp)
  | Except.ok _ =>
    match mp.verify_nonce tx with
    | Except.error e => (Except.error e, mp)
    | Except.ok _ =>
      let tx_hash := compute_tx_hash tx
      if mp.seen.contains tx_hash then (Except.error ("Transaction already in mempool"), mp)
      else if mp.pending.length ≥ mp.max_size then
        (Except.error ("Mempool full (" ++ toString mp.max_size ++ " transactions)"), mp)
      else
        (Except.ok tx_hash,
         { mp with
             account_nonces := insertNonce mp.account_nonces tx.sender tx.nonce,
             pending := mp.pending ++ [tx],
             seen := tx_hash :: mp.seen })

/-- Loop body of `take_transactions`: pop from the front up to `count`
times, dropping each popped hash from the seen set. -/
def takeGo : Nat → List Transaction → List String → List Transaction →
    List Transaction × List Transaction × List String
  | 0, pending, seen, acc => (acc, pending, seen)
  | Nat.succ k, pending, seen, acc =>
      match pending with
      | [] => (acc, [], seen)
      | tx :: rest => takeGo k rest (seen.erase (compute_tx_hash tx)) (acc ++ [tx])

/-- `TransactionMempool::take_transactions`. -/
def TransactionMempool.take_transactions (mp : TransactionMempool) (count : Nat) :
    List Transaction × TransactionMempool :=
  let r := takeGo count mp.pending mp.seen []
  (r.1, { mp with pending := r.2.1, seen := r.2.2 })

/-- `TransactionMempool::get_pending`. -/
def TransactionMempool.get_pending (mp : TransactionMempool) : List Transaction :=
  mp.pending

/-- `TransactionMempool::finalize_block_transactions`: for every included
transaction set the account's entry to `tx.nonce + 1` (u64 wrap). -/
def TransactionMempool.finalize_block_transactions (mp : TransactionMempool)
    (transactions : List Transaction) : TransactionMempool :=
  { mp with
      account_nonces :=
        transactions.foldl (fun m tx => insertNonce m tx.sender ((tx.nonce + 1) % u64Mod))
          mp.account_nonces }

/-! ### Consensus engines (`consensus/pow.rs`, `consensus/pos.rs`) -/

namespace PoWConsensus

/-- `PoWConsensus::hash_block_content`: hex SHA-256 over the concatenated
`Debug` strings of the transactions, the previous hash, the little-endian
nonce and the state root. -/
def hash_block_content (transactions : List Transaction) (previous_hash : String)
    (nonce : Nat) (state_root : Bytes) : String :=
  let tx_string := String.join (transactions.map Transaction.debugFmt)
  hexEncode (sha256 (strBytes tx_string ++ strBytes previous_hash ++ toLeBytes8 nonce ++ state_root))

/-- The nonce search loop of `produce_block`, fuel-bounded: the Rust loop
runs until a hash with hex prefix `0000` appears; `none` means the fuel ran
out first. -/
def produceLoop (transactions : List Transaction) (pre_state_root post_state_root : Bytes) :
    Nat → Nat → Option Block
  | 0, _ => none
  | Nat.succ fuel, nonce =>
      let hash := hash_block_content transactions ("GENESIS") nonce post_state_root
      if strStartsWith hash ("0000") then
        some { transactions, previous_hash := "GENESIS", nonce, hash, pre_state_root, post_state_root }
      else produceLoop transactions pre_state_root post_state_root fuel (nonce + 1)

/-- `PoWConsensus::produce_block`, nonce search starting at 0. -/
def produce_block (fuel : Nat) (transactions : List Transaction)
    (pre_state_root post_state_root : Bytes) : Option Block :=
  produceLoop transactions pre_state_root post_state_root fuel 0

/-- `PoWConsensus::validate_block`: prefix check, hash recomputation from
the block's own fields with the caller's expected post root, post-root
equality. -/
def validate_block (block : Block) (_pre_state_root actual_post_state_root : Bytes) : Bool :=
  strStartsWith block.hash ("0000") &&
  (hash_block_content block.transactions block.previous_hash block.nonce actual_post_state_root
      == block.hash) &&
  (block.post_state_root == actual_post_state_root)

end PoWConsensus

namespace PoSConsensus

/-- `PoSConsensus::select_validator`: `max_by_key` over the validator map —
the later entry wins ties; the map's (arbitrary) iteration order is the
list order of the embedding.  An empty map yields `DefaultValidator`. -/
def select_validator (validators : List (String × Nat)) : String :=
  match validators.foldl
    (fun acc p =>
      match acc with
      | none => some p
      | some b => if b.2 ≤ p.2 then some p else some b) none with
  | some p => p.1
  | none => "DefaultValidator"

/-- `PoSConsensus::hash_block_content`: like PoW but with the validator name
in place of the nonce — the nonce is not an input. -/
def hash_block_content (transactions : List Transaction) (previous_hash validator : String)
    (state_root : Bytes) : String :=
  let tx_string := String.join (transactions.map Transaction.debugFmt)
  hexEncode (sha256 (strBytes tx_string ++ strBytes previous_hash ++ strBytes validator ++ state_root))

/-- `PoSConsensus::produce_block`: deterministic, nonce fixed to 0. -/
def produce_block (validators : List (String × Nat)) (transactions : List Transaction)
    (pre_state_root post_state_root : Bytes) : Block :=
  let previous_hash := "GENESIS"
  let validator := select_validator validators
  { transactions, previous_hash, nonce := 0,
    hash := hash_block_content transactions previous_hash validator post_state_root,
    pre_state_root, post_state_root }

/-- `PoSConsensus::validate_block`: recomputes the hash from the block's
transactions and previous hash, the locally selected validator and the
expected post root — the block's nonce is never read. -/
def validate_block (validators : List (String × Nat)) (block : Block)
    (_pre_state_root actual_post_state_root : Bytes) : Bool :=
  (hash_block_content block.transactions block.previous_hash (select_validator validators)
      actual_post_state_root == block.hash) &&
  (block.post_state_root == actual_post_state_root)

end PoSConsensus

/-! ### Block producer loop (`block_producer.rs`) -/

/-- Observable actions of one iteration of `BlockProducer::run`.  The last
five constructors name the pipeline stages of the specification; the
embedding emits a step whenever the corresponding call is made, so a stage
missing from a trace was never invoked. -/
inductive ProducerStep where
  | getPending
  | takeTransactions
  | finalizeBlockTransactions
  | produceBlockInfo
  | simulateBlock
  | consensusProduceBlock
  | commitBlock
  | indexBlock
  | broadcastBlock
  deriving DecidableEq

/-- One iteration of the `BlockProducer::run` loop body (after the sleep),
as written in `block_producer.rs`: `get_pending`, an emptiness check,
`take_transactions(100)`, then — for a non-empty batch —
`finalize_block_transactions` followed by the logging-and-metrics
`produce_block_info`, incrementing the block number.  Returned are the trace
of performed steps in order, the mempool, and the block number. -/
def BlockProducer.runIteration (mp : TransactionMempool) (block_number : Nat) :
    List ProducerStep × TransactionMempool × Nat :=
  let pending_txs := mp.get_pending
  if pending_txs.isEmpty then ([ProducerStep.getPending], mp, block_number)
  else
    let taken := mp.take_transactions 100
    if taken.1.isEmpty then
      ([ProducerStep.getPending, ProducerStep.takeTransactions], taken.2, block_number)
    else
      let mpF := taken.2.finalize_block_transactions taken.1
      ([ProducerStep.getPending, ProducerStep.takeTransactions,
        ProducerStep.finalizeBlockTransactions, ProducerStep.produceBlockInfo],
       mpF, block_number + 1)

/-! ### Sync state (`sync.rs`) -/

/-- `BlockSyncState` of `sync.rs`. -/
structure BlockSyncState where
  local_height : Nat
  peer_max_height : Nat
  pending_blocks : List (Nat × String)
  staged_blocks : List Block

/-- `BlockSyncState::is_synced`. -/
def BlockSyncState.is_synced (s : BlockSyncState) : Bool :=
  s.local_height ≥ s.peer_max_height

/-- `BlockSyncState::get_sync_range`. -/
def BlockSyncState.get_sync_range (s : BlockSyncState) : Option (Nat × Nat) :=
  if s.is_synced then none
  else some (s.local_height + 1, s.peer_max_height)

/-! ## Auxiliary definitions for the claim theorems -/

/-- Fold of `add_transaction` over a call sequence: the final mempool. -/
def addAll (edv : EdVerify) : TransactionMempool → List Transaction → TransactionMempool
  | mp, [] => mp
  | mp, tx :: rest => addAll edv (mp.add_transaction edv tx).2 rest

/-- The subsequence of a call sequence that was admitted (in order). -/
def admittedTxs (edv : EdVerify) : TransactionMempool → List Transaction → List Transaction
  | _, [] => []
  | mp, tx :: rest =>
      (if (mp.add_transaction edv tx).1.isOk then [tx] else []) ++
        admittedTxs edv (mp.add_transaction edv tx).2 rest

/-- Nonces of sender `A`'s admitted transactions, in admission order. -/
def admittedNonces (edv : EdVerify) (mp : TransactionMempool) (txs : List Transaction)
    (A : String) : List Nat :=
  ((admittedTxs edv mp txs).filter (fun t => t.sender = A)).map (fun t => t.nonce)

/-! ## Concrete inputs used by the claim theorems -/

/-- An ed25519 oracle that rejects everything; transactions with empty
signatures never reach it. -/
def noEd : EdVerify := fun _ _ _ => Except.ok false

/-- Genesis KV store holding only Alice with balance 100. -/
def aliceDb : Db := { entries := [(strBytes ("Alice"), toLeBytes8 100)] }

/-- State processor over `aliceDb` and an empty trie. -/
def aliceSp : StateProcessor := { db := aliceDb, trie := MerklePatriciaTrie.new }

/-- Two transfers where the second spends the first one's output:
Alice pays Bob 60, then Bob pays Carol 50. -/
def chainedTxs : List Transaction :=
  [Transaction.transfer ("Alice") ("Bob") 60, Transaction.transfer ("Bob") ("Carol") 50]

/-- A block carrying `chainedTxs` (the state processor reads only the
transaction list). -/
def chainedBlock : Block :=
  { transactions := chainedTxs, previous_hash := "GENESIS", nonce := 0, hash := "",
    pre_state_root := [], post_state_root := [] }

/-- The validator map the node builds for `ConsensusType::PoS` in
`consensus/mod.rs` (`get_engine`). -/
def posValidators : List (String × Nat) := [("Alice", 100), ("Bob", 200)]

/-- A block produced by the PoS engine over no transactions. -/
def posBlk : Block := PoSConsensus.produce_block posValidators [] [] []

/-- `posBlk` with only its nonce changed. -/
def posBlkNonce1 : Block := { posBlk with nonce := 1 }

/-- Alice's transaction with nonce 5 (empty signature: bootstrap path). -/
def tx5 : Transaction :=
  { sender := "Alice", nonce := 5, gas_price := 1,
    payload := TransactionPayload.Transfer ("Bob") 10,
    signature := [], public_key := [] }

/-- The follow-up transaction with nonce 6. -/
def tx6 : Transaction := { tx5 with nonce := 6 }

/-- Admission of `tx5` into a fresh default mempool. -/
def mpAfterAdd5 : Except String String × TransactionMempool :=
  TransactionMempool.new.add_transaction noEd tx5

/-- The producer takes the transaction for inclusion. -/
def mpAfterTake : List Transaction × TransactionMempool :=
  mpAfterAdd5.2.take_transactions 1

/-- Nonces finalized for the included transaction. -/
def mpFinal : TransactionMempool :=
  mpAfterTake.2.finalize_block_transactions [tx5]

/-- A mempool holding Alice's admitted nonce-5 transaction. -/
def pendingMp : TransactionMempool :=
  { pending := [tx5], seen := [compute_tx_hash tx5], account_nonces := [("Alice", 5)],
    max_size := 1000 }

/-- A post state root for which the very first PoW nonce succeeds: the
hash of (no transactions, `GENESIS`, nonce 0, this root) begins `0000`. -/
def powRoot : Bytes := [173, 135, 2, 0]

/-- Placeholder block for `Option.getD`. -/
def powDummy : Block :=
  { transactions := [], previous_hash := "", nonce := 0, hash := "",
    pre_state_root := [], post_state_root := [] }

/-- The block the PoW engine produces over no transactions and `powRoot`. -/
def powBlk : Block := (PoWConsensus.produce_block 1 [] [] powRoot).getD powDummy

/-- The balance the KV store holds under a key (0 when absent), read the
way both `get_balance` and the balance sum read it. -/
def Db.balAt (d : Db) (key : Bytes) : Nat :=
  match d.get key with
  | some bytes => fromLeBytes8 bytes
  | none => 0

/-- Sum of the decoded balances of every entry of the store. -/
def Db.balanceSum (d : Db) : Nat :=
  (d.entries.map (fun e => fromLeBytes8 e.2)).sum

/-- The self-payment of claim C6's corner case: Alice pays herself 50. -/
def selfTx : Transaction := Transaction.transfer ("Alice") ("Alice") 50

/-- Alice's stale transaction with nonce 3. -/
def txA3 : Transaction := { tx5 with nonce := 3 }

/-- Bob's first transaction (nonce 5, no prior admission for Bob). -/
def txBob : Transaction := { tx5 with sender := "Bob" }

/-! ## Helper lemmas -/

/-- Any failing `add_transaction` leaves the mempool untouched: every check
precedes every mutation in the source. -/
theorem add_transaction_error_state (edv : EdVerify) (mp : TransactionMempool)
    (tx : Transaction) (e : String)
    (h : (mp.add_transaction edv tx).1 = Except.error e) :
    (mp.add_transaction edv tx).2 = mp := by
  unfold TransactionMempool.add_transaction at h ⊢
  cases hs : TransactionMempool.verify_transaction_signature edv tx with
  | error e' => simp [hs]
  | ok u =>
    cases hn : mp.verify_nonce tx with
    | error e' => simp [hs, hn]
    | ok v =>
      by_cases h1 : compute_tx_hash tx ∈ mp.seen <;>
        by_cases h2 : mp.pending.length ≥ mp.max_size <;>
        simp [hs, hn, h1, h2] at h ⊢

theorem get_balance_eq_balAt (s : StateProcessor) (A : String) :
    s.get_balance A = s.db.balAt (strBytes A) := rfl

theorem leDecode_toLeBytes8 (n : Nat) : leDecode (toLeBytes8 n) = n % u64Mod := by
  simp [leDecode, toLeBytes8, u64Mod]
  omega

theorem fromLeBytes8_toLeBytes8 (n : Nat) : fromLeBytes8 (toLeBytes8 n) = n % u64Mod := by
  rw [fromLeBytes8, if_pos (by rfl)]
  exact leDecode_toLeBytes8 n

theorem find?_putEntries_same : ∀ (l : List (Bytes × Bytes)) (k v : Bytes),
    (putEntries l k v).find? (fun e => e.1 = k) = some (k, v) := by
  intro l
  induction l with
  | nil => intro k v; simp [putEntries, List.find?]
  | cons p rest ih =>
    intro k v
    obtain ⟨k', v'⟩ := p
    by_cases h : k' = k
    · subst h; simp [putEntries, List.find?]
    · simp [putEntries, h, List.find?_cons, ih]

theorem find?_putEntries_other : ∀ (l : List (Bytes × Bytes)) (k v k2 : Bytes), k2 ≠ k →
    (putEntries l k v).find? (fun e => e.1 = k2) = l.find? (fun e => e.1 = k2) := by
  intro l
  induction l with
  | nil =>
    intro k v k2 h
    have h' : ¬ (k = k2) := fun hh => h hh.symm
    simp [putEntries, List.find?, h']
  | cons p rest ih =>
    intro k v k2 h
    obtain ⟨k', v'⟩ := p
    by_cases hk : k' = k
    · subst hk
      have h' : ¬ (k' = k2) := fun hh => h hh.symm
      simp [putEntries, List.find?_cons, h']
    · by_cases hk2 : k' = k2
      · subst hk2
        simp [putEntries, hk, List.find?_cons]
      · simp [putEntries, hk, hk2, List.find?_cons, ih k v k2 h]

theorem Db.balAt_put_same (d : Db) (k v : Bytes) :
    (d.put k v).balAt k = fromLeBytes8 v := by
  simp [Db.balAt, Db.get, Db.put, find?_putEntries_same]

theorem Db.balAt_put_other (d : Db) (k v k2 : Bytes) (h : k2 ≠ k) :
    (d.put k v).balAt k2 = d.balAt k2 := by
  simp [Db.balAt, Db.get, Db.put, find?_putEntries_other d.entries k v k2 h]

theorem balanceSum_putEntries : ∀ (l : List (Bytes × Bytes)) (k v : Bytes),
    ((putEntries l k v).map (fun e => fromLeBytes8 e.2)).sum +
      (match l.find? (fun e => e.1 = k) with
       | some e => fromLeBytes8 e.2
       | none => 0) =
    (l.map (fun e => fromLeBytes8 e.2)).sum + fromLeBytes8 v := by
  intro l
  induction l with
  | nil => intro k v; simp [putEntries, List.find?]
  | cons p rest ih =>
    intro k v
    obtain ⟨k', v'⟩ := p
    by_cases h : k' = k
    · subst h; simp [putEntries, List.find?_cons]; omega
    · simp only [putEntries, if_neg h, List.map_cons, List.sum_cons, List.find?_cons]
      have hd : (decide (k' = k)) = false := by simp [h]
      simp only [hd]
      have := ih k v
      omega

theorem Db.balanceSum_put (d : Db) (k v : Bytes) :
    (d.put k v).balanceSum + d.balAt k = d.balanceSum + fromLeBytes8 v := by
  have h := balanceSum_putEntries d.entries k v
  simp only [Db.balanceSum, Db.put, Db.balAt, Db.get]
  cases hf : d.entries.find? (fun e => e.1 = k) with
  | none => rw [hf] at h; simpa [hf] using h
  | some e => rw [hf] at h; simpa [hf] using h

/-- Every block returned by the PoW nonce search carries the searched
fields: the given transactions, previous hash `GENESIS`, the given roots,
the hash recomputable from its own nonce, and the `0000` hex prefix. -/
theorem powProduceLoop_spec (txs : List Transaction) (pre post : Bytes) :
    ∀ (fuel start : Nat) (b : Block),
      PoWConsensus.produceLoop txs pre post fuel start = some b →
      b.transactions = txs ∧ b.previous_hash = "GENESIS" ∧ b.pre_state_root = pre ∧
      b.post_state_root = post ∧
      b.hash = PoWConsensus.hash_block_content txs ("GENESIS") b.nonce post ∧
      strStartsWith b.hash ("0000") = true := by
  intro fuel
  induction fuel with
  | zero =>
    intro start b h
    exact absurd h (by simp [PoWConsensus.produceLoop])
  | succ f ih =>
    intro start b h
    simp only [PoWConsensus.produceLoop] at h
    by_cases hc :
        strStartsWith (PoWConsensus.hash_block_content txs ("GENESIS") start post) ("0000") = true
    · rw [if_pos hc] at h
      obtain rfl := (Option.some.inj h).symm
      exact ⟨rfl, rfl, rfl, rfl, rfl, hc⟩
    · rw [if_neg hc] at h
      exact ih (start + 1) b h

/-- A rejected `add_transaction` (result not ok) leaves the mempool untouched. -/
theorem add_transaction_not_ok_state (edv : EdVerify) (mp : TransactionMempool)
    (tx : Transaction) (h : (mp.add_transaction edv tx).1.isOk = false) :
    (mp.add_transaction edv tx).2 = mp := by
  cases hr : (mp.add_transaction edv tx).1 with
  | error e => exact add_transaction_error_state edv mp tx e hr
  | ok s => rw [hr] at h; simp [Except.isOk, Except.toBool] at h

/-- A successful `add_transaction` passed the nonce check and performed
exactly the three insertions. -/
theorem add_transaction_ok_state (edv : EdVerify) (mp : TransactionMempool)
    (tx : Transaction) (h : (mp.add_transaction edv tx).1.isOk = true) :
    (mp.add_transaction edv tx).2 =
      { mp with
          account_nonces := insertNonce mp.account_nonces tx.sender tx.nonce,
          pending := mp.pending ++ [tx],
          seen := compute_tx_hash tx :: mp.seen } ∧
    mp.verify_nonce tx = Except.ok () := by
  unfold TransactionMempool.add_transaction at h ⊢
  cases hs : TransactionMempool.verify_transaction_signature edv tx with
  | error e' => rw [hs] at h; simp [Except.isOk, Except.toBool] at h
  | ok u =>
    cases hn : mp.verify_nonce tx with
    | error e' => rw [hs, hn] at h; simp [Except.isOk, Except.toBool] at h
    | ok v =>
      obtain ⟨⟩ := u
      obtain ⟨⟩ := v
      by_cases h1 : compute_tx_hash tx ∈ mp.seen <;>
        by_cases h2 : mp.pending.length ≥ mp.max_size <;>
        simp [hs, hn, h1, h2, Except.isOk, Except.toBool] at h ⊢

theorem lookupNonce_insert_same (m : List (String × Nat)) (k : String) (v : Nat) :
    lookupNonce (insertNonce m k v) k = some v := by
  induction m with
  | nil => simp [insertNonce, lookupNonce, List.find?]
  | cons p rest ih =>
    obtain ⟨k', v'⟩ := p
    by_cases h : k' = k
    · subst h; simp [insertNonce, lookupNonce, List.find?]
    · simp only [insertNonce, if_neg h]
      simp only [lookupNonce, List.find?_cons] at ih ⊢
      have hd : (decide (k' = k)) = false := by simp [h]
      simp only [hd]
      exact ih

theorem lookupNonce_insert_other (m : List (String × Nat)) (k k2 : String) (v : Nat)
    (h : k2 ≠ k) :
    lookupNonce (insertNonce m k v) k2 = lookupNonce m k2 := by
  induction m with
  | nil =>
    have h' : ¬ (k = k2) := fun hh => h hh.symm
    simp [insertNonce, lookupNonce, List.find?, h']
  | cons p rest ih =>
    obtain ⟨k', v'⟩ := p
    by_cases hk : k' = k
    · subst hk
      have h' : ¬ (k' = k2) := fun hh => h hh.symm
      simp [insertNonce, lookupNonce, List.find?_cons, h']
    · by_cases hk2 : k' = k2
      · subst hk2
        simp [insertNonce, hk, lookupNonce, List.find?_cons]
      · simp only [insertNonce, if_neg hk]
        simp only [lookupNonce, List.find?_cons] at ih ⊢
        have hd : (decide (k' = k2)) = false := by simp [hk2]
        simp only [hd]
        exact ih

/-- Passing the nonce check means any stored nonce lies strictly below. -/
theorem verify_nonce_ok (mp : TransactionMempool) (tx : Transaction)
    (h : mp.verify_nonce tx = Except.ok ()) (m : Nat)
    (hm : lookupNonce mp.account_nonces tx.sender = some m) : m < tx.nonce := by
  unfold TransactionMempool.verify_nonce at h
  simp only [hm] at h
  by_cases hle : tx.nonce ≤ m
  · simp [hle] at h
  · omega

/-- The seed-and-admitted nonce chain: starting from any mempool, the value
stored for `A` (if any) followed by the nonces of `A`'s subsequently
admitted transactions is strictly increasing. -/
theorem chainSeed (edv : EdVerify) : ∀ (txs : List Transaction) (mp : TransactionMempool)
    (A : String),
    List.Chain' (· < ·)
      ((lookupNonce mp.account_nonces A).toList ++ admittedNonces edv mp txs A) := by
  intro txs
  induction txs with
  | nil =>
    intro mp A
    simp only [admittedNonces, admittedTxs, List.filter_nil, List.map_nil, List.append_nil]
    cases lookupNonce mp.account_nonces A <;> simp
  | cons tx rest ih =>
    intro mp A
    by_cases hok : (mp.add_transaction edv tx).1.isOk = true
    · obtain ⟨hst, hvn⟩ := add_transaction_ok_state edv mp tx hok
      by_cases hA : tx.sender = A
      · -- admitted transaction from A
        have hlist : admittedNonces edv mp (tx :: rest) A =
            tx.nonce :: admittedNonces edv (mp.add_transaction edv tx).2 rest A := by
          simp [admittedNonces, admittedTxs, hok, hA]
        rw [hlist]
        have hlook : lookupNonce ((mp.add_transaction edv tx).2).account_nonces A =
            some tx.nonce := by
          rw [hst]
          subst hA
          exact lookupNonce_insert_same mp.account_nonces tx.sender tx.nonce
        have ihx := ih (mp.add_transaction edv tx).2 A
        rw [hlook] at ihx
        simp only [Option.toList] at ihx
        cases hseed : lookupNonce mp.account_nonces A with
        | none => simpa using ihx
        | some m =>
          have hm : m < tx.nonce := verify_nonce_ok mp tx hvn m (hA ▸ hseed)
          simp only [Option.toList, List.cons_append, List.nil_append]
          exact List.chain'_cons.mpr ⟨hm, ihx⟩
      · -- admitted transaction from another sender
        have hlist : admittedNonces edv mp (tx :: rest) A =
            admittedNonces edv (mp.add_transaction edv tx).2 rest A := by
          simp [admittedNonces, admittedTxs, hok, hA]
        have hlook : lookupNonce ((mp.add_transaction edv tx).2).account_nonces A =
            lookupNonce mp.account_nonces A := by
          rw [hst]
          exact lookupNonce_insert_other mp.account_nonces tx.sender A tx.nonce
            (fun hh => hA hh.symm)
        rw [hlist, ← hlook]
        exact ih (mp.add_transaction edv tx).2 A
    · -- rejected transaction
      have hok' : (mp.add_transaction edv tx).1.isOk = false := by
        cases hr : (mp.add_transaction edv tx).1.isOk with
        | false => rfl
        | true => exact absurd hr hok
      have hst := add_transaction_not_ok_state edv mp tx hok'
      have hlist : admittedNonces edv mp (tx :: rest) A =
          admittedNonces edv (mp.add_transaction edv tx).2 rest A := by
        simp [admittedNonces, admittedTxs, hok']
      rw [hlist, hst]
      exact ih mp A

/-- After a call sequence, the stored nonce for `A` is the nonce of `A`'s
last admitted transaction, or the initially stored value when none was
admitted. -/
theorem lookup_addAll (edv : EdVerify) : ∀ (txs : List Transaction) (mp : TransactionMempool)
    (A : String),
    (admittedNonces edv mp txs A = [] ∧
      lookupNonce (addAll edv mp txs).account_nonces A = lookupNonce mp.account_nonces A) ∨
    (∃ M, (admittedNonces edv mp txs A).getLast? = some M ∧
      lookupNonce (addAll edv mp txs).account_nonces A = some M) := by
  intro txs
  induction txs with
  | nil =>
    intro mp A
    left
    exact ⟨by simp [admittedNonces, admittedTxs], rfl⟩
  | cons tx rest ih =>
    intro mp A
    by_cases hok : (mp.add_transaction edv tx).1.isOk = true
    · obtain ⟨hst, _hvn⟩ := add_transaction_ok_state edv mp tx hok
      by_cases hA : tx.sender = A
      · have hlist : admittedNonces edv mp (tx :: rest) A =
            tx.nonce :: admittedNonces edv (mp.add_transaction edv tx).2 rest A := by
          simp [admittedNonces, admittedTxs, hok, hA]
        have hlook : lookupNonce ((mp.add_transaction edv tx).2).account_nonces A =
            some tx.nonce := by
          rw [hst]; subst hA
          exact lookupNonce_insert_same mp.account_nonces tx.sender tx.nonce
        have haddAll : addAll edv mp (tx :: rest) = addAll edv (mp.add_transaction edv tx).2 rest := rfl
        rcases ih (mp.add_transaction edv tx).2 A with ⟨hnil, heq⟩ | ⟨M, hlast, heq⟩
        · right
          refine ⟨tx.nonce, ?_, ?_⟩
          · rw [hlist, hnil]; rfl
          · rw [haddAll, heq, hlook]
        · right
          refine ⟨M, ?_, ?_⟩
          · rw [hlist]
            cases hl : admittedNonces edv (mp.add_transaction edv tx).2 rest A with
            | nil => rw [hl] at hlast; simp at hlast
            | cons x xs => rw [hl] at hlast; rw [List.getLast?_cons_cons]; exact hlast
          · rw [haddAll]; exact heq
      · have hlist : admittedNonces edv mp (tx :: rest) A =
            admittedNonces edv (mp.add_transaction edv tx).2 rest A := by
          simp [admittedNonces, admittedTxs, hok, hA]
        have hlook : lookupNonce ((mp.add_transaction edv tx).2).account_nonces A =
            lookupNonce mp.account_nonces A := by
          rw [hst]
          exact lookupNonce_insert_other mp.account_nonces tx.sender A tx.nonce
            (fun hh => hA hh.symm)
        have haddAll : addAll edv mp (tx :: rest) = addAll edv (mp.add_transaction edv tx).2 rest := rfl
        rcases ih (mp.add_transaction edv tx).2 A with ⟨hnil, heq⟩ | ⟨M, hlast, heq⟩
        · left
          exact ⟨by rw [hlist]; exact hnil, by rw [haddAll, heq, hlook]⟩
        · right
          exact ⟨M, by rw [hlist]; exact hlast, by rw [haddAll]; exact heq⟩
    · have hok' : (mp.add_transaction edv tx).1.isOk = false := by
        cases hr : (mp.add_transaction edv tx).1.isOk with
        | false => rfl
        | true => exact absurd hr hok
      have hst := add_transaction_not_ok_state edv mp tx hok'
      have hlist : admittedNonces edv mp (tx :: rest) A =
          admittedNonces edv (mp.add_transaction edv tx).2 rest A := by
        simp [admittedNonces, admittedTxs, hok']
      have haddAll : addAll edv mp (tx :: rest) = addAll edv (mp.add_transaction edv tx).2 rest := rfl
      rw [hlist, haddAll, hst]
      exact ih mp A

/-- In a strictly increasing list every member is bounded by the last. -/
theorem chain_mem_le_getLast : ∀ (l : List Nat), List.Chain' (· < ·) l →
    ∀ x ∈ l, ∀ M, l.getLast? = some M → x ≤ M := by
  intro l
  induction l with
  | nil => intro _ x hx; cases hx
  | cons a t ih =>
    intro hc x hx M hM
    cases t with
    | nil =>
      simp at hM hx
      omega
    | cons b t' =>
      obtain ⟨hab, hc'⟩ := List.chain'_cons.mp hc
      rw [List.getLast?_cons_cons] at hM
      rcases List.mem_cons.mp hx with rfl | hx'
      · have hb : b ≤ M := ih hc' b (List.mem_cons_self b t') M hM
        omega
      · exact ih hc' x hx' M hM

/-- An `add_transaction` whose signature check passes and whose nonce check
fails returns exactly the nonce error and the unchanged mempool. -/
theorem add_transaction_badnonce (edv : EdVerify) (mp : TransactionMempool)
    (tx : Transaction) (e : String)
    (hsig : TransactionMempool.verify_transaction_signature edv tx = Except.ok ())
    (hn : mp.verify_nonce tx = Except.error e) :
    mp.add_transaction edv tx = (Except.error e, mp) := by
  simp [TransactionMempool.add_transaction, hsig, hn]

/-! ## Claim theorems -/

/-- C1: `simulate_block` and `apply_block` disagree on the same inputs.
From the live state `{Alice: 100}`, committing `[Alice→Bob 60, Bob→Carol 50]`
executes both transfers (the second reads Bob's fresh balance 60 from the
live KV) and leaves the trie at `Leaf(Carol, 50)`, while simulating reads
Bob's stale balance 0 from the immutable snapshot (`SimulatedProcessor`
writes only the trie, never its read source), skips the second transfer and
ends at `Leaf(Bob, 60)` — the returned roots differ. -/
theorem C1_simulate_commit_diverge :
    aliceSp.simulate_block chainedTxs ≠ (aliceSp.apply_block chainedBlock).1 ∧
    aliceSp.simulate_block chainedTxs = (Node.Leaf (strBytes ("Bob")) (toLeBytes8 60)).hash ∧
    (aliceSp.apply_block chainedBlock).1 = (Node.Leaf (strBytes ("Carol")) (toLeBytes8 50)).hash ∧
    (aliceSp.apply_block chainedBlock).2.get_balance ("Bob") = 10 ∧
    (aliceSp.apply_block chainedBlock).2.get_balance ("Carol") = 50 := by
  refine ⟨by decide, by decide, by decide, by decide, by decide⟩

/-- C2: the trie root depends on insertion order.  `insert` replaces the
entire root by a leaf for the new pair, so after inserting the distinct-key
pairs `([97],[1])` and `([98],[2])` in the two orders the roots are the
hashes of different leaves; the first pair is lost outright. -/
theorem C2_insertion_order_sensitive :
    ((MerklePatriciaTrie.new.insert [97] [1]).insert [98] [2]).root_hash ≠
      ((MerklePatriciaTrie.new.insert [98] [2]).insert [97] [1]).root_hash ∧
    ((MerklePatriciaTrie.new.insert [97] [1]).insert [98] [2]).get [97] = none ∧
    ((MerklePatriciaTrie.new.insert [97] [1]).insert [98] [2]).get [98] = some [2] := by
  refine ⟨by decide, by decide, by decide⟩

/-- C3 counterexample: for the PoS engine the block hash is not a function
of the nonce.  `posBlk` and `posBlkNonce1` agree on transactions, previous
hash and post state root, differ in nonce, carry the same hash, and
`validate_block` — which never reads the nonce — accepts both. -/
theorem C3_pos_hash_ignores_nonce_cx :
    posBlk.nonce = 0 ∧ posBlkNonce1.nonce = 1 ∧
    posBlkNonce1.transactions = posBlk.transactions ∧
    posBlkNonce1.previous_hash = posBlk.previous_hash ∧
    posBlkNonce1.post_state_root = posBlk.post_state_root ∧
    posBlkNonce1.hash = posBlk.hash ∧
    PoSConsensus.validate_block posValidators posBlk [] [] = true ∧
    PoSConsensus.validate_block posValidators posBlkNonce1 [] [] = true := by
  refine ⟨rfl, rfl, rfl, rfl, rfl, rfl, by decide, by decide⟩

/-- C3 amended: the PoW hash covers transactions, previous hash, nonce and
post state root — witnessed by two hashes differing only in the nonce — but
the PoS hash covers transactions, previous hash, proposer and post state
root and is independent of the nonce: PoS validation of a block is invariant
under changing its nonce, and PoS-produced blocks always carry nonce 0. -/
theorem C3_block_hash_inputs_amended :
    PoWConsensus.hash_block_content [] ("GENESIS") 0 [] ≠
      PoWConsensus.hash_block_content [] ("GENESIS") 1 [] ∧
    (∀ (validators : List (String × Nat)) (b : Block) (pre post : Bytes) (n : Nat),
        PoSConsensus.validate_block validators { b with nonce := n } pre post =
          PoSConsensus.validate_block validators b pre post) ∧
    (∀ (validators : List (String × Nat)) (txs : List Transaction) (pre post : Bytes),
        (PoSConsensus.produce_block validators txs pre post).nonce = 0) := by
  exact ⟨by decide, fun _ _ _ _ _ => rfl, fun _ _ _ _ => rfl⟩

/-- C4: after admitting, including and finalizing Alice's nonce-5
transaction, resubmitting nonce 5 fails with the bad-nonce error as the
claim states — but the follow-up nonce 6 is also rejected, because
`finalize_block_transactions` stores `5 + 1 = 6` while `verify_nonce`
demands a nonce strictly greater than the stored value. -/
theorem C4_finalize_rejects_next_nonce :
    mpAfterAdd5.1.isOk = true ∧
    mpAfterTake.1 = [tx5] ∧
    (mpFinal.add_transaction noEd tx5).1 = Except.error (badNonceMsg 6 5) ∧
    (mpFinal.add_transaction noEd tx6).1 = Except.error (badNonceMsg 6 6) := by
  refine ⟨by decide, by decide, by decide, by decide⟩

/-- C5: an iteration of `BlockProducer::run` that includes transactions
performs only `get_pending`, `take_transactions`,
`finalize_block_transactions` and the logging `produce_block_info`, in that
order: nonces are finalized before anything else, and no simulate, consensus
produce, commit, index or broadcast call occurs anywhere in the iteration. -/
theorem C5_producer_loop_lacks_pipeline :
    (BlockProducer.runIteration pendingMp 1).1 =
      [ProducerStep.getPending, ProducerStep.takeTransactions,
       ProducerStep.finalizeBlockTransactions, ProducerStep.produceBlockInfo] ∧
    ProducerStep.simulateBlock ∉ (BlockProducer.runIteration pendingMp 1).1 ∧
    ProducerStep.consensusProduceBlock ∉ (BlockProducer.runIteration pendingMp 1).1 ∧
    ProducerStep.commitBlock ∉ (BlockProducer.runIteration pendingMp 1).1 ∧
    ProducerStep.indexBlock ∉ (BlockProducer.runIteration pendingMp 1).1 ∧
    ProducerStep.broadcastBlock ∉ (BlockProducer.runIteration pendingMp 1).1 := by
  refine ⟨by decide, by decide, by decide, by decide, by decide, by decide⟩

/-- C6 counterexample: a funded Transfer with `to == from` inflates the
balance instead of preserving it: the recipient balance is read before the
sender balance is written, so Alice at 100 paying herself 50 ends at 150 —
the sum of all balances grows by the amount. -/
theorem C6_self_transfer_inflates :
    aliceSp.get_balance ("Alice") = 100 ∧
    (aliceSp.apply_transaction selfTx).get_balance ("Alice") = 150 ∧
    aliceSp.db.balanceSum = 100 ∧
    (aliceSp.apply_transaction selfTx).db.balanceSum = 150 := by
  refine ⟨by decide, by decide, by decide, by decide⟩

/-- C6 amended: for an underfunded Transfer the state is unchanged; for a
funded Transfer with distinct sender and recipient keys the sender drops by
the amount, the recipient grows by it (modulo u64 wrap), and — absent u64
overflow on the recipient — the sum of all balances is preserved.  The
sender balance is assumed to be a representable u64, as every value the
node itself stores is. -/
theorem C6_transfer_semantics (sp : StateProcessor) (A B : String) (a nce gp : Nat)
    (sig pk : Bytes) :
    (sp.get_balance A < a →
       sp.apply_transaction
         { sender := A, nonce := nce, gas_price := gp,
           payload := TransactionPayload.Transfer B a, signature := sig, public_key := pk } = sp) ∧
    (strBytes A ≠ strBytes B → a ≤ sp.get_balance A → sp.get_balance A < u64Mod →
       (sp.apply_transaction
         { sender := A, nonce := nce, gas_price := gp,
           payload := TransactionPayload.Transfer B a, signature := sig, public_key := pk
         }).get_balance A = sp.get_balance A - a ∧
       (sp.apply_transaction
         { sender := A, nonce := nce, gas_price := gp,
           payload := TransactionPayload.Transfer B a, signature := sig, public_key := pk
         }).get_balance B = (sp.get_balance B + a) % u64Mod) ∧
    (strBytes A ≠ strBytes B → a ≤ sp.get_balance A → sp.get_balance A < u64Mod →
       sp.get_balance B + a < u64Mod →
       (sp.apply_transaction
         { sender := A, nonce := nce, gas_price := gp,
           payload := TransactionPayload.Transfer B a, signature := sig, public_key := pk
         }).db.balanceSum = sp.db.balanceSum) := by
  have happ : ∀ (h : a ≤ sp.get_balance A),
      sp.apply_transaction
        { sender := A, nonce := nce, gas_price := gp,
          payload := TransactionPayload.Transfer B a, signature := sig, public_key := pk } =
      (sp.set_balance A (sp.get_balance A - a)).set_balance B ((sp.get_balance B + a) % u64Mod) := by
    intro h
    simp only [StateProcessor.apply_transaction]
    rw [if_pos h]
  refine ⟨?_, ?_, ?_⟩
  · intro hlt
    simp only [StateProcessor.apply_transaction]
    rw [if_neg (by omega)]
  · intro hne hge hlt
    rw [happ hge]
    constructor
    · rw [get_balance_eq_balAt]
      show ((sp.set_balance A (sp.get_balance A - a)).db.put (strBytes B) _).balAt (strBytes A) = _
      rw [Db.balAt_put_other _ _ _ _ hne]
      show ((sp.db.put (strBytes A) (toLeBytes8 (sp.get_balance A - a)))).balAt (strBytes A) = _
      rw [Db.balAt_put_same, fromLeBytes8_toLeBytes8]
      simp only [u64Mod] at hlt ⊢
      omega
    · rw [get_balance_eq_balAt]
      show ((sp.set_balance A (sp.get_balance A - a)).db.put (strBytes B) _).balAt (strBytes B) = _
      rw [Db.balAt_put_same, fromLeBytes8_toLeBytes8]
      simp only [u64Mod]
      omega
  · intro hne hge hlt hov
    rw [happ hge]
    have h1 := Db.balanceSum_put sp.db (strBytes A) (toLeBytes8 (sp.get_balance A - a))
    have h2 := Db.balanceSum_put (sp.db.put (strBytes A) (toLeBytes8 (sp.get_balance A - a)))
      (strBytes B) (toLeBytes8 ((sp.get_balance B + a) % u64Mod))
    have hBmid : (sp.db.put (strBytes A) (toLeBytes8 (sp.get_balance A - a))).balAt (strBytes B) =
        sp.db.balAt (strBytes B) :=
      Db.balAt_put_other _ _ _ _ (fun hh => hne hh.symm)
    have hA : sp.db.balAt (strBytes A) = sp.get_balance A := (get_balance_eq_balAt sp A).symm
    have hB : sp.db.balAt (strBytes B) = sp.get_balance B := (get_balance_eq_balAt sp B).symm
    have hv1 : fromLeBytes8 (toLeBytes8 (sp.get_balance A - a)) = sp.get_balance A - a := by
      rw [fromLeBytes8_toLeBytes8]
      simp only [u64Mod] at hlt ⊢
      omega
    have hv2 : fromLeBytes8 (toLeBytes8 ((sp.get_balance B + a) % u64Mod)) =
        sp.get_balance B + a := by
      rw [fromLeBytes8_toLeBytes8]
      simp only [u64Mod] at hov ⊢
      omega
    show ((sp.db.put (strBytes A) (toLeBytes8 (sp.get_balance A - a))).put (strBytes B)
        (toLeBytes8 ((sp.get_balance B + a) % u64Mod))).balanceSum = sp.db.balanceSum
    rw [hBmid, hB, hv2] at h2
    rw [hA, hv1] at h1
    omega

/-- C6 witness: both the underfunded and the funded cases at concrete
states — Alice at 10 cannot pay 60 and nothing changes; Alice at 100 paying
Bob (at 5) 60 leaves 40, 65 and an unchanged balance sum. -/
theorem C6_transfer_semantics_witness :
    ({ db := { entries := [(strBytes ("Alice"), toLeBytes8 10)] },
       trie := MerklePatriciaTrie.new : StateProcessor }.apply_transaction
        { sender := "Alice", nonce := 0, gas_price := 1,
          payload := TransactionPayload.Transfer ("Bob") 60,
          signature := [], public_key := [] } =
      { db := { entries := [(strBytes ("Alice"), toLeBytes8 10)] },
        trie := MerklePatriciaTrie.new }) ∧
    (({ db := { entries := [(strBytes ("Alice"), toLeBytes8 100), (strBytes ("Bob"), toLeBytes8 5)] },
        trie := MerklePatriciaTrie.new : StateProcessor }.apply_transaction
        { sender := "Alice", nonce := 0, gas_price := 1,
          payload := TransactionPayload.Transfer ("Bob") 60,
          signature := [], public_key := [] }).get_balance ("Alice") = 40 ∧
     ({ db := { entries := [(strBytes ("Alice"), toLeBytes8 100), (strBytes ("Bob"), toLeBytes8 5)] },
        trie := MerklePatriciaTrie.new : StateProcessor }.apply_transaction
        { sender := "Alice", nonce := 0, gas_price := 1,
          payload := TransactionPayload.Transfer ("Bob") 60,
          signature := [], public_key := [] }).get_balance ("Bob") = 65) ∧
    ({ db := { entries := [(strBytes ("Alice"), toLeBytes8 100), (strBytes ("Bob"), toLeBytes8 5)] },
       trie := MerklePatriciaTrie.new : StateProcessor }.apply_transaction
        { sender := "Alice", nonce := 0, gas_price := 1,
          payload := TransactionPayload.Transfer ("Bob") 60,
          signature := [], public_key := [] }).db.balanceSum =
      ({ db := { entries := [(strBytes ("Alice"), toLeBytes8 100), (strBytes ("Bob"), toLeBytes8 5)] },
         trie := MerklePatriciaTrie.new : StateProcessor }).db.balanceSum := by
  refine ⟨?_, ?_, ?_⟩
  · exact (C6_transfer_semantics _ ("Alice") ("Bob") 60 0 1 [] []).1 (by decide)
  · have h := (C6_transfer_semantics
      { db := { entries := [(strBytes ("Alice"), toLeBytes8 100), (strBytes ("Bob"), toLeBytes8 5)] },
        trie := MerklePatriciaTrie.new } ("Alice") ("Bob") 60 0 1 [] []).2.1
      (by decide) (by decide) (by decide)
    exact ⟨by rw [h.1]; decide, by rw [h.2]; decide⟩
  · exact (C6_transfer_semantics _ ("Alice") ("Bob") 60 0 1 [] []).2.2
      (by decide) (by decide) (by decide) (by decide)

/-- C7: whenever the PoW search returns a block (the search is embedded
with fuel, the Rust loop runs until success), validating it against the
same pre and post roots succeeds, and its hash starts with the four hex
characters `0000`. -/
theorem C7_pow_roundtrip (fuel : Nat) (txs : List Transaction) (pre post : Bytes) (b : Block)
    (h : PoWConsensus.produce_block fuel txs pre post = some b) :
    PoWConsensus.validate_block b pre post = true ∧
    strStartsWith b.hash ("0000") = true := by
  obtain ⟨ht, hp, _hpre, hpost, hh, hs⟩ := powProduceLoop_spec txs pre post fuel 0 b h
  refine ⟨?_, hs⟩
  unfold PoWConsensus.validate_block
  rw [ht, hp, hpost, ← hh, hs]
  simp

/-- C7 witness: the concrete produced block validates and has the prefix. -/
theorem C7_pow_roundtrip_witness :
    PoWConsensus.validate_block powBlk [] powRoot = true ∧
    strStartsWith powBlk.hash ("0000") = true :=
  C7_pow_roundtrip 1 [] [] powRoot powBlk (by decide)

/-- C9: `is_synced` holds exactly when the local height has reached the
maximal peer height, and `get_sync_range` is `(local+1, peer_max)` when
behind and `none` otherwise. -/
theorem C9_sync_predicate (s : BlockSyncState) :
    (s.is_synced = true ↔ s.peer_max_height ≤ s.local_height) ∧
    s.get_sync_range =
      (if s.local_height < s.peer_max_height then some (s.local_height + 1, s.peer_max_height)
       else none) := by
  constructor
  · simp [BlockSyncState.is_synced, decide_eq_true_eq, ge_iff_le]
  · rcases Nat.lt_or_ge s.local_height s.peer_max_height with h | h
    · have hb : s.is_synced = false := by
        simp [BlockSyncState.is_synced, decide_eq_true_eq, ge_iff_le]
        omega
      simp [BlockSyncState.get_sync_range, hb, h]
    · have hb : s.is_synced = true := by
        simp [BlockSyncState.is_synced, decide_eq_true_eq, ge_iff_le]
        omega
      simp [BlockSyncState.get_sync_range, hb, Nat.not_lt.mpr h]

/-- C10: a rejected `add_transaction` (signature, nonce, duplicate or
capacity failure) changes neither the pending queue nor the seen set nor
the account-nonce map. -/
theorem C10_admission_atomic (edv : EdVerify) (mp : TransactionMempool)
    (tx : Transaction) (e : String)
    (h : (mp.add_transaction edv tx).1 = Except.error e) :
    (mp.add_transaction edv tx).2.pending = mp.pending ∧
    (mp.add_transaction edv tx).2.seen = mp.seen ∧
    (mp.add_transaction edv tx).2.account_nonces = mp.account_nonces := by
  rw [add_transaction_error_state edv mp tx e h]
  exact ⟨rfl, rfl, rfl⟩

/-- C10 witness: a concrete rejection — the capacity-0 mempool refuses
`tx5` with the `Full` error and is unchanged. -/
theorem C10_admission_atomic_witness :
    ((TransactionMempool.with_capacity 0).add_transaction noEd tx5).2.pending =
      (TransactionMempool.with_capacity 0).pending ∧
    ((TransactionMempool.with_capacity 0).add_transaction noEd tx5).2.seen =
      (TransactionMempool.with_capacity 0).seen ∧
    ((TransactionMempool.with_capacity 0).add_transaction noEd tx5).2.account_nonces =
      (TransactionMempool.with_capacity 0).account_nonces :=
  C10_admission_atomic noEd (TransactionMempool.with_capacity 0) tx5
    ("Mempool full (0 transactions)") (by decide)

/-- C8: from a fresh mempool of any capacity, under any ed25519 oracle —
(1) a call whose nonce does not exceed the nonce of an earlier admitted
transaction of the same sender (and whose signature check passes, the check
made first) fails with the bad-nonce error against the stored nonce and
leaves the mempool unchanged; (2) a call by a sender none of whose
transactions has been admitted is never rejected for its nonce; (3) the
nonces of each sender's admitted transactions are strictly increasing in
admission order. -/
theorem C8_nonce_monotone (edv : EdVerify) (cap : Nat) :
    (∀ (pre : List Transaction) (tx : Transaction),
        TransactionMempool.verify_transaction_signature edv tx = Except.ok () →
        (∃ tx', tx' ∈ admittedTxs edv (TransactionMempool.with_capacity cap) pre ∧
            tx'.sender = tx.sender ∧ tx.nonce ≤ tx'.nonce) →
        ∃ m, tx.nonce ≤ m ∧
          ((addAll edv (TransactionMempool.with_capacity cap) pre).add_transaction edv tx) =
            (Except.error (badNonceMsg m tx.nonce),
              addAll edv (TransactionMempool.with_capacity cap) pre)) ∧
    (∀ (pre : List Transaction) (tx : Transaction),
        (∀ tx' ∈ admittedTxs edv (TransactionMempool.with_capacity cap) pre,
            tx'.sender ≠ tx.sender) →
        (addAll edv (TransactionMempool.with_capacity cap) pre).verify_nonce tx =
          Except.ok ()) ∧
    (∀ (txs : List Transaction) (A : String),
        List.Pairwise (· < ·)
          (admittedNonces edv (TransactionMempool.with_capacity cap) txs A)) := by
  have hempty : ∀ A, lookupNonce (TransactionMempool.with_capacity cap).account_nonces A = none := by
    intro A; rfl
  have hchain : ∀ txs A,
      List.Chain' (· < ·) (admittedNonces edv (TransactionMempool.with_capacity cap) txs A) := by
    intro txs A
    have := chainSeed edv txs (TransactionMempool.with_capacity cap) A
    rw [hempty A] at this
    simpa using this
  refine ⟨?_, ?_, ?_⟩
  · rintro pre tx hsig ⟨tx', htx'mem, htx'sender, htx'nonce⟩
    have hmemN : tx'.nonce ∈
        admittedNonces edv (TransactionMempool.with_capacity cap) pre tx.sender := by
      simp only [admittedNonces, List.mem_map]
      exact ⟨tx', List.mem_filter.mpr ⟨htx'mem, by simp [htx'sender]⟩, rfl⟩
    rcases lookup_addAll edv pre (TransactionMempool.with_capacity cap) tx.sender with
      ⟨hnil, _⟩ | ⟨M, hlast, hlook⟩
    · rw [hnil] at hmemN; cases hmemN
    · have hleM : tx'.nonce ≤ M :=
        chain_mem_le_getLast _ (hchain pre tx.sender) tx'.nonce hmemN M hlast
      have hnonceM : tx.nonce ≤ M := le_trans htx'nonce hleM
      have hvn : (addAll edv (TransactionMempool.with_capacity cap) pre).verify_nonce tx =
          Except.error (badNonceMsg M tx.nonce) := by
        simp [TransactionMempool.verify_nonce, hlook, hnonceM]
      exact ⟨M, hnonceM, add_transaction_badnonce edv _ tx _ hsig hvn⟩
  · intro pre tx hno
    have hnil : admittedNonces edv (TransactionMempool.with_capacity cap) pre tx.sender = [] := by
      simp only [admittedNonces]
      have hf : (admittedTxs edv (TransactionMempool.with_capacity cap) pre).filter
          (fun t => t.sender = tx.sender) = [] := by
        rw [List.filter_eq_nil_iff]
        intro a ha
        simp [hno a ha]
      rw [hf]
      rfl
    rcases lookup_addAll edv pre (TransactionMempool.with_capacity cap) tx.sender with
      ⟨_, heq⟩ | ⟨M, hlast, _⟩
    · rw [hempty] at heq
      simp [TransactionMempool.verify_nonce, heq]
    · rw [hnil] at hlast; simp at hlast
  · intro txs A
    exact List.chain'_iff_pairwise.mp (hchain txs A)

/-- C8 witness: after admitting Alice's nonce-5 transaction, her nonce-3
call fails with the bad-nonce error and changes nothing; Bob's first call
passes the nonce check; and over the calls (Alice 5, Alice 6, Alice 3) the
admitted nonces are strictly increasing. -/
theorem C8_nonce_monotone_witness :
    (∃ m, txA3.nonce ≤ m ∧
       ((addAll noEd (TransactionMempool.with_capacity 1000) [tx5]).add_transaction noEd txA3) =
         (Except.error (badNonceMsg m txA3.nonce),
           addAll noEd (TransactionMempool.with_capacity 1000) [tx5])) ∧
    ((addAll noEd (TransactionMempool.with_capacity 1000) [tx5]).verify_nonce txBob =
      Except.ok ()) ∧
    List.Pairwise (· < ·)
      (admittedNonces noEd (TransactionMempool.with_capacity 1000) [tx5, tx6, txA3] ("Alice")) := by
  refine ⟨?_, ?_, ?_⟩
  · exact (C8_nonce_monotone noEd 1000).1 [tx5] txA3 (by decide)
      ⟨tx5, by decide, by decide, by decide⟩
  · exact (C8_nonce_monotone noEd 1000).2.1 [tx5] txBob (by decide)
  · exact (C8_nonce_monotone noEd 1000).2.2 [tx5, tx6, txA3] ("Alice")

end Aureon
